import Mathlib

/-!
Shallow embedding of `src/lib.ts` (cap-parallel).

The source is a small TypeScript library exporting `mapAllSettled`, a
bounded-concurrency analogue of `Promise.allSettled(arr.map(mapFn))`.
Its pieces are:

* `runMapFn`  — runs the async map function on one item inside
  `try/catch` and returns a `PromiseSettledResult`;
* `worker`    — loops over a shared generator, writing
  `result[index] = await runMapFn(...)` for each pulled item;
* `mapParams` — a generator yielding `[array[index], index, array]`
  for `index = 0 .. array.length - 1`;
* `mapAllSettled` — early-returns `[]` on empty input, clamps the
  requested limit with `Math.min(concurrentLimit, arr.length)`,
  allocates `new Array(concurrentLimit)` and launches the workers,
  then awaits them all and returns the shared `result` array.

Modelling decisions, justified by the JavaScript semantics of the source:

* An async map function is modelled as a pure function
  `T → Nat → List T → Except E R`: awaiting its promise either produces a
  value (`Except.ok`) or throws the rejection reason (`Except.error`).
* The shared generator is a list of the values it will yield; `gen.next()`
  is synchronous and atomic in JS, so pulls happen in yield order (FIFO)
  no matter which worker calls.  Each loop iteration of `worker` performs
  two atomic accesses to shared state: the pull, and (after the `await`
  resolves) the write `result[index] = ...` followed immediately by the
  next pull.  Writes of distinct iterations target distinct indices, so
  the final contents of `result` and the total number of processed items
  are independent of how the event loop interleaves the workers; they
  equal those of the run in which each launched worker in turn drains
  whatever is left of the generator.  The model threads the remaining
  generator through the workers accordingly.
* A JS array with holes is modelled as a `List (Option _)`: the sparse
  assignment `a[i] = x` pads with holes (`none`) up to `i` when `i` is
  past the end.  The `result` slate starts as `[]`.
* Mutable storage reachable from `mapAllSettled` is gathered in a `Store`
  (the input array cell and the result cell); the only assignment the
  source performs on it is `result[index] = ...`, so only the `result`
  field is ever updated.
* `concurrentLimit` is a JS number used as an array length; it is
  modelled as `Int`.  `new Array(n)` throws a `RangeError` for negative
  `n`, modelled as `Except.error JsError.rangeError`.  (Non-integer
  limits, which also throw, are outside the `Int` model.)
* `console.time` / `console.log` / `Date.now` are diagnostics with no
  effect on the observable results and are not modelled, except that the
  source's per-worker `processed` counter is kept, since the total number
  of processed items equals the number of `mapFn` invocations.
-/

set_option autoImplicit false

namespace CapParallel

universe u v w x

variable {T : Type u} {R : Type v} {E : Type w} {α : Type x}

/-- `PromiseSettledResult<R>` from the source: the discriminated union of
`{status: 'fulfilled', value}` and `{status: 'rejected', reason}`.  The
`reason` is `unknown` in TS; it is the type parameter `E` here. -/
inductive PromiseSettledResult (R : Type v) (E : Type w) where
  | fulfilled (value : R)
  | rejected (reason : E)
  deriving DecidableEq

/-- The error a `mapAllSettled` call itself can throw: the `RangeError`
raised by `new Array(concurrentLimit)` when the length is invalid. -/
inductive JsError where
  | rangeError
  deriving DecidableEq

/-- `AsyncMapFn<T, R>`: the transform, given `(value, index, array)`;
awaiting it yields a value (`ok`) or throws a reason (`error`). -/
def AsyncMapFn (T : Type u) (R : Type v) (E : Type w) : Type (max u v w) :=
  T → Nat → List T → Except E R

/-- `runMapFn`: run the map function for one value inside `try/catch` and
return a settled result — `fulfilled` with the awaited value, or
`rejected` with the caught reason. -/
def runMapFn (mapFn : AsyncMapFn T R E) (value : T) (index : Nat) (array : List T) :
    PromiseSettledResult R E :=
  match mapFn value index array with
  | .ok v => .fulfilled v
  | .error reason => .rejected reason

/-- JS sparse array assignment `a[index] = x` on a hole-aware array:
in range it overwrites; past the end it pads with holes (`none`) so the
new length is `index + 1`. -/
def jsArraySet (a : List (Option α)) (index : Nat) (x : α) : List (Option α) :=
  if index < a.length then a.set index (some x)
  else a ++ List.replicate (index - a.length) none ++ [some x]

/-- The mutable storage reachable from a `mapAllSettled` call: the input
array `arr` and the shared `result` slate the workers write into. -/
structure Store (T : Type u) (R : Type v) (E : Type w) where
  arr : List T
  result : List (Option (PromiseSettledResult R E))
  deriving DecidableEq

/-- `worker`: loop `for (const [currentValue, index, array] of gen)`,
writing `result[index] = await runMapFn(mapFn, currentValue, index, array)`
and counting `processed++`; the worker dies when the generator is
exhausted.  Returns the remaining generator (always drained to `[]`),
the updated store, and the source's `processed` counter. -/
def worker (gen : List (T × Nat × List T)) (mapFn : AsyncMapFn T R E) (s : Store T R E) :
    List (T × Nat × List T) × Store T R E × Nat :=
  match gen with
  | [] => ([], s, 0)
  | (currentValue, index, array) :: gen' =>
      let s' : Store T R E :=
        { s with result := jsArraySet s.result index (runMapFn mapFn currentValue index array) }
      let (genLeft, s'', processed) := worker gen' mapFn s'
      (genLeft, s'', processed + 1)

/-- The body of the `mapParams` loop from iteration `index` on: `pending`
is the suffix `array.drop index` still to be traversed (the source reads
`array[index]` each iteration and never mutates `array`, so traversing
the suffix is the same reads), and each step yields
`[currentValue, index, array]`. -/
def mapParamsGo (pending : List T) (index : Nat) (array : List T) :
    List (T × Nat × List T) :=
  match pending with
  | [] => []
  | currentValue :: pending' =>
      (currentValue, index, array) :: mapParamsGo pending' (index + 1) array

/-- `mapParams`: the generator that yields `[array[index], index, array]`
for `index = 0, 1, ..., array.length - 1`, modelled as the list of the
values it yields, in yield order. -/
def mapParams (array : List T) : List (T × Nat × List T) :=
  mapParamsGo array 0 array

/-- One `gen.next()` call on a generator in state `g`: yields the head
(`none` when exhausted) and the successor state. -/
def genNext (g : List α) : Option α × List α :=
  match g with
  | [] => (none, [])
  | x :: g' => (some x, g')

/-- `count` successive `gen.next()` calls, keeping only the final
generator state. -/
def genDrain (count : Nat) (g : List α) : List α :=
  match count with
  | 0 => g
  | count' + 1 => genDrain count' (genNext g).2

/-- The `for (let i = 0; i < concurrentLimit; i++) workers.push(worker(...))`
launch followed by `await Promise.all(workers)`: `count` workers share the
generator (each drains what the previous ones left) and the store; the
returned `Nat` is the sum of the workers' `processed` counters, i.e. the
total number of `mapFn` invocations. -/
def runWorkers (count : Nat) (gen : List (T × Nat × List T)) (mapFn : AsyncMapFn T R E)
    (s : Store T R E) : Store T R E × Nat :=
  match count with
  | 0 => (s, 0)
  | count' + 1 =>
      let (genLeft, s', processed) := worker gen mapFn s
      let (s'', rest) := runWorkers count' genLeft mapFn s'
      (s'', processed + rest)

/-- `mapAllSettled`, instrumented: returns the final store (input cell and
result slate) together with the total number of processed items.  The
body follows the source line by line: `result = []`; early return on
empty input; `gen = mapParams(arr)`;
`concurrentLimit = Math.min(concurrentLimit, arr.length)`;
`new Array(concurrentLimit)` throws a `RangeError` when the clamped limit
is negative; otherwise the `concurrentLimit` workers run and the shared
`result` is returned. -/
def mapAllSettledExec (arr : List T) (mapFn : AsyncMapFn T R E) (concurrentLimit : Int) :
    Except JsError (Store T R E × Nat) :=
  let s : Store T R E := { arr := arr, result := [] }
  if arr.length = 0 then
    .ok (s, 0)
  else
    let gen := mapParams arr
    let concurrentLimit' := min concurrentLimit (arr.length : Int)
    if concurrentLimit' < 0 then
      .error JsError.rangeError
    else
      .ok (runWorkers concurrentLimit'.toNat gen mapFn s)

/-- `mapAllSettled(arr, mapFn, concurrentLimit = arr.length)`: the settled
results the source resolves with (the shared `result` array), or the
error it rejects with. -/
def mapAllSettled (arr : List T) (mapFn : AsyncMapFn T R E)
    (concurrentLimit : Int := (arr.length : Int)) :
    Except JsError (List (Option (PromiseSettledResult R E))) :=
  (mapAllSettledExec arr mapFn concurrentLimit).map fun p => p.1.result

/-- Unlimited-parallelism settle-all semantics, from the spec's words:
the direct map of the transform over the input,
`Promise.allSettled(arr.map(mapFn))` (note `Array.prototype.map` hands
`(value, index, array)` to the callback). -/
def allSettledUnbounded (mapFn : AsyncMapFn T R E) (arr : List T) :
    List (PromiseSettledResult R E) :=
  arr.enum.map fun iv => runMapFn mapFn iv.2 iv.1 arr

/-- `true` exactly on `rejected` results. -/
def isRejected : PromiseSettledResult R E → Bool
  | .rejected _ => true
  | .fulfilled _ => false

/-- `true` exactly on `fulfilled` results. -/
def isFulfilled : PromiseSettledResult R E → Bool
  | .rejected _ => false
  | .fulfilled _ => true

/-- `true` when the transform's outcome is a failure (`Except.error`). -/
def exceptFails : Except E R → Bool
  | .error _ => true
  | .ok _ => false

instance {E' : Type w} {A : Type v} [DecidableEq E'] [DecidableEq A] :
    DecidableEq (Except E' A)
  | .ok a, .ok b =>
      if h : a = b then .isTrue (by rw [h]) else .isFalse (by simp [h])
  | .ok _, .error _ => .isFalse (by simp)
  | .error _, .ok _ => .isFalse (by simp)
  | .error a, .error b =>
      if h : a = b then .isTrue (by rw [h]) else .isFalse (by simp [h])

/-! ## Basic lemmas about the embedded operations -/

@[simp]
theorem worker_nil (mapFn : AsyncMapFn T R E) (s : Store T R E) :
    worker [] mapFn s = ([], s, 0) := rfl

@[simp]
theorem runWorkers_nil_gen (mapFn : AsyncMapFn T R E) :
    ∀ (count : Nat) (s : Store T R E), runWorkers count [] mapFn s = (s, 0) := by
  intro count
  induction count with
  | zero => intro s; rfl
  | succ n ih => intro s; simp [runWorkers, worker, ih]

/-- Writing at the exact end of the slate appends, with no hole. -/
theorem jsArraySet_length (a : List (Option α)) (x : α) :
    jsArraySet a a.length x = a ++ [some x] := by
  simp [jsArraySet]

/-- The settled results the generator suffix `mapParamsGo pending index array`
gives rise to, in yield order. -/
def settledGo (mapFn : AsyncMapFn T R E) (gen : List (T × Nat × List T)) :
    List (Option (PromiseSettledResult R E)) :=
  gen.map fun p => some (runMapFn mapFn p.1 p.2.1 p.2.2)

/-- A single worker drains a generator of consecutively indexed items,
appending one settled result per item to a slate whose length equals the
first index. -/
theorem worker_mapParamsGo (mapFn : AsyncMapFn T R E) (array : List T) :
    ∀ (pending : List T) (index : Nat) (s : Store T R E), s.result.length = index →
      worker (mapParamsGo pending index array) mapFn s =
        ([], ⟨s.arr, s.result ++ settledGo mapFn (mapParamsGo pending index array)⟩,
          pending.length) := by
  intro pending
  induction pending with
  | nil =>
      intro index s _
      simp [mapParamsGo, settledGo, worker]
  | cons v pending' ih =>
      intro index s hlen
      have hset : jsArraySet s.result index (runMapFn mapFn v index array) =
          s.result ++ [some (runMapFn mapFn v index array)] := by
        rw [← hlen]; exact jsArraySet_length _ _
      have hlen' :
          (s.result ++ [some (runMapFn mapFn v index array)]).length = index + 1 := by
        simp [hlen]
      have ihs := ih (index + 1)
        ⟨s.arr, s.result ++ [some (runMapFn mapFn v index array)]⟩ hlen'
      simp only [mapParamsGo, worker, hset, ihs, settledGo, List.map_cons]
      simp [List.append_assoc]

/-- The generator suffix, described by `List.enumFrom`. -/
theorem mapParamsGo_eq_enumFrom (array : List T) :
    ∀ (pending : List T) (index : Nat),
      mapParamsGo pending index array =
        (List.enumFrom index pending).map fun iv => (iv.2, iv.1, array) := by
  intro pending
  induction pending with
  | nil => intro index; rfl
  | cons v pending' ih => intro index; simp [mapParamsGo, List.enumFrom, ih]

/-- The whole generator, described by `List.enum`. -/
theorem mapParams_eq_enum (array : List T) :
    mapParams array = array.enum.map fun iv => (iv.2, iv.1, array) := by
  rw [mapParams, mapParamsGo_eq_enumFrom, List.enum]

/-- The settled results produced from the whole generator are exactly the
unbounded settle-all results. -/
theorem settledGo_mapParams (mapFn : AsyncMapFn T R E) (arr : List T) :
    settledGo mapFn (mapParams arr) = (allSettledUnbounded mapFn arr).map some := by
  rw [settledGo, mapParams_eq_enum, allSettledUnbounded, List.map_map, List.map_map]
  rfl

@[simp]
theorem allSettledUnbounded_length (mapFn : AsyncMapFn T R E) (arr : List T) :
    (allSettledUnbounded mapFn arr).length = arr.length := by
  simp [allSettledUnbounded]

theorem allSettledUnbounded_getElem (mapFn : AsyncMapFn T R E) (arr : List T)
    (i : Nat) (h : i < arr.length) (h' : i < (allSettledUnbounded mapFn arr).length) :
    (allSettledUnbounded mapFn arr)[i] = runMapFn mapFn arr[i] i arr := by
  simp [allSettledUnbounded]

theorem allSettledUnbounded_getElem? (mapFn : AsyncMapFn T R E) (arr : List T)
    (i : Nat) (h : i < arr.length) :
    (allSettledUnbounded mapFn arr)[i]? = some (runMapFn mapFn arr[i] i arr) := by
  simp [allSettledUnbounded, List.getElem?_eq_getElem h]

/-- Master run lemma: with at least one worker requested, the instrumented
run terminates with the input cell untouched, the slate equal to the
unbounded settle-all results (each present), and all `N` items processed. -/
theorem mapAllSettledExec_of_one_le (arr : List T) (mapFn : AsyncMapFn T R E)
    (limit : Int) (hlim : 1 ≤ limit) :
    mapAllSettledExec arr mapFn limit =
      .ok (⟨arr, (allSettledUnbounded mapFn arr).map some⟩, arr.length) := by
  by_cases harr : arr.length = 0
  · have : arr = [] := List.length_eq_zero.mp harr
    subst this
    simp [mapAllSettledExec, allSettledUnbounded]
  · have hN : 1 ≤ (arr.length : Int) := by
      have : 1 ≤ arr.length := Nat.one_le_iff_ne_zero.mpr harr
      exact_mod_cast this
    have hmin : 1 ≤ min limit (arr.length : Int) := le_min hlim hN
    have hneg : ¬ (min limit (arr.length : Int) < 0) := by omega
    obtain ⟨k, hk⟩ : ∃ k, (min limit (arr.length : Int)).toNat = k + 1 :=
      ⟨(min limit (arr.length : Int)).toNat - 1, by omega⟩
    have hworker := worker_mapParamsGo mapFn arr arr 0 ⟨arr, []⟩ rfl
    rw [← mapParams] at hworker
    simp only [mapAllSettledExec, if_neg harr, if_neg hneg, hk, runWorkers, hworker,
      runWorkers_nil_gen]
    rw [settledGo_mapParams]
    simp

/-- Master run lemma, restricted to the observable result. -/
theorem mapAllSettled_of_one_le (arr : List T) (mapFn : AsyncMapFn T R E)
    (limit : Int) (hlim : 1 ≤ limit) :
    mapAllSettled arr mapFn limit = .ok ((allSettledUnbounded mapFn arr).map some) := by
  rw [mapAllSettled, mapAllSettledExec_of_one_le arr mapFn limit hlim, Except.map]

@[simp]
theorem mapParams_length (array : List T) : (mapParams array).length = array.length := by
  rw [mapParams_eq_enum]; simp

@[simp]
theorem genDrain_eq_drop (count : Nat) :
    ∀ (g : List α), genDrain count g = g.drop count := by
  induction count with
  | zero => intro g; rfl
  | succ n ih =>
      intro g
      cases g with
      | nil => rw [genDrain, genNext, ih]; simp
      | cons x g' => rw [genDrain, genNext, ih]; rfl

@[simp]
theorem isRejected_runMapFn (mapFn : AsyncMapFn T R E) (value : T) (index : Nat)
    (array : List T) :
    isRejected (runMapFn mapFn value index array) = exceptFails (mapFn value index array) := by
  cases h : mapFn value index array <;> simp [runMapFn, isRejected, exceptFails, h]

@[simp]
theorem isFulfilled_runMapFn (mapFn : AsyncMapFn T R E) (value : T) (index : Nat)
    (array : List T) :
    isFulfilled (runMapFn mapFn value index array) =
      !exceptFails (mapFn value index array) := by
  cases h : mapFn value index array <;> simp [runMapFn, isFulfilled, exceptFails, h]

/-- The worker only ever assigns into `result`; the input cell is
untouched. -/
theorem worker_arr (mapFn : AsyncMapFn T R E) :
    ∀ (gen : List (T × Nat × List T)) (s : Store T R E),
      ((worker gen mapFn s).2.1).arr = s.arr := by
  intro gen
  induction gen with
  | nil => intro s; rfl
  | cons p gen' ih =>
      intro s
      obtain ⟨v, i, a⟩ := p
      have := ih { s with
        result := jsArraySet s.result i (runMapFn mapFn v i a) }
      simp only [worker]
      cases hw : worker gen' mapFn
          { s with result := jsArraySet s.result i (runMapFn mapFn v i a) } with
      | mk genLeft rest =>
          rw [hw] at this
          simpa using this

/-- No worker assigns into the input cell. -/
theorem runWorkers_arr (mapFn : AsyncMapFn T R E) :
    ∀ (count : Nat) (gen : List (T × Nat × List T)) (s : Store T R E),
      ((runWorkers count gen mapFn s).1).arr = s.arr := by
  intro count
  induction count with
  | zero => intro gen s; rfl
  | succ n ih =>
      intro gen s
      have h1 := worker_arr mapFn gen s
      simp only [runWorkers]
      cases hw : worker gen mapFn s with
      | mk genLeft rest =>
          obtain ⟨s', processed⟩ := rest
          have h2 := ih genLeft s'
          rw [hw] at h1
          simp only at h1
          cases hr : runWorkers n genLeft mapFn s' with
          | mk s'' total =>
              rw [hr] at h2
              simp only at h2
              simp [h2, h1]

/-- With a clamped limit of `0` on nonempty input, no worker is launched:
the generator is never pulled from, nothing is processed, and the shared
(empty) slate is returned. -/
theorem mapAllSettledExec_zero (arr : List T) (mapFn : AsyncMapFn T R E)
    (h : arr.length ≠ 0) :
    mapAllSettledExec arr mapFn 0 = .ok (⟨arr, []⟩, 0) := by
  have hmin : min (0 : Int) (arr.length : Int) = 0 :=
    min_eq_left (by exact_mod_cast Nat.zero_le arr.length)
  simp [mapAllSettledExec, h, hmin, runWorkers]

/-- A negative requested limit on nonempty input reaches
`new Array(concurrentLimit)` with a negative length and throws. -/
theorem mapAllSettledExec_negative (arr : List T) (mapFn : AsyncMapFn T R E)
    (m : Int) (hm : m < 0) (h : arr.length ≠ 0) :
    mapAllSettledExec arr mapFn m = .error JsError.rangeError := by
  have hmin : min m (arr.length : Int) = m :=
    min_eq_left (by omega)
  simp [mapAllSettledExec, h, hmin, hm]

/-! ## Claims -/

/-- Claim C1, counterexample: requesting a concurrency limit of `0` on a
one-element input does not behave like requesting `1` — the claimed lower
clamp into `[1, N]` does not happen. -/
theorem mapAllSettled_limit_zero_ne_limit_one :
    mapAllSettled [0] (fun v _ _ => (Except.ok v : Except Unit Nat)) 0 ≠
      mapAllSettled [0] (fun v _ _ => (Except.ok v : Except Unit Nat)) 1 := by
  decide

/-- Claim C1, amended: for input length `N > 0`, a requested limit above
`N` is clamped down to `N` (`Math.min`), but there is no lower clamp — a
requested limit of `0` launches zero workers and yields an empty slate,
and a negative requested limit makes the operation throw a `RangeError`. -/
theorem mapAllSettled_clamp_upper_only (arr : List T) (mapFn : AsyncMapFn T R E)
    (limit m : Int) (hN : 0 < arr.length) (hlim : (arr.length : Int) ≤ limit)
    (hm : m < 0) :
    mapAllSettled arr mapFn limit = mapAllSettled arr mapFn (arr.length : Int) ∧
    mapAllSettled arr mapFn 0 = .ok [] ∧
    mapAllSettled arr mapFn m = .error JsError.rangeError := by
  have hN' : (1 : Int) ≤ (arr.length : Int) := by exact_mod_cast hN
  have hz : arr.length ≠ 0 := by omega
  refine ⟨?_, ?_, ?_⟩
  · rw [mapAllSettled_of_one_le arr mapFn limit (le_trans hN' hlim),
      mapAllSettled_of_one_le arr mapFn (arr.length : Int) hN']
  · rw [mapAllSettled, mapAllSettledExec_zero arr mapFn hz, Except.map]
  · rw [mapAllSettled, mapAllSettledExec_negative arr mapFn m hm hz, Except.map]

/-- Claim C1, witness for the amended theorem at `arr = [3]`, `limit = 5`,
`m = -2`. -/
theorem mapAllSettled_clamp_upper_only_witness :
    mapAllSettled [3] (fun v _ _ => (Except.ok v : Except Unit Nat)) 5 =
      mapAllSettled [3] (fun v _ _ => (Except.ok v : Except Unit Nat)) 1 ∧
    mapAllSettled [3] (fun v _ _ => (Except.ok v : Except Unit Nat)) 0 = .ok [] ∧
    mapAllSettled [3] (fun v _ _ => (Except.ok v : Except Unit Nat)) (-2) =
      .error JsError.rangeError :=
  mapAllSettled_clamp_upper_only [3] (fun v _ _ => (Except.ok v : Except Unit Nat))
    5 (-2) (by decide) (by decide) (by decide)

/-- Claim C2, counterexample: with a requested limit of `0` the result of
`mapAllSettled` on a one-element input has length `0`, not `N = 1`, so
the claim fails for that requested concurrency limit. -/
theorem mapAllSettled_limit_zero_short_result :
    ¬ ∃ res : List (Option (PromiseSettledResult Nat Unit)),
        mapAllSettled [5] (fun v _ _ => Except.ok v) 0 = .ok res ∧
          res.length = 1 := by
  rintro ⟨res, hres, hlen⟩
  have h0 : mapAllSettled [5] (fun v _ _ => Except.ok v) 0 =
      .ok ([] : List (Option (PromiseSettledResult Nat Unit))) := by decide
  rw [h0] at hres
  injection hres with h1
  rw [← h1] at hlen
  simp at hlen

/-- Claim C2, amended: for every requested limit of at least `1` (so at
least one worker runs), `mapAllSettled` succeeds with a slate of length
exactly `N`, every slot populated, and slot `i` holding the settled
result of the transform on input `i`. -/
theorem mapAllSettled_length_populated (arr : List T) (mapFn : AsyncMapFn T R E)
    (limit : Int) (hlim : 1 ≤ limit) :
    ∃ res, mapAllSettled arr mapFn limit = .ok res ∧
      res.length = arr.length ∧
      ∀ i (h : i < arr.length), res[i]? = some (some (runMapFn mapFn arr[i] i arr)) := by
  refine ⟨(allSettledUnbounded mapFn arr).map some,
    mapAllSettled_of_one_le arr mapFn limit hlim, by simp, ?_⟩
  intro i h
  rw [List.getElem?_map, allSettledUnbounded_getElem? mapFn arr i h, Option.map]

/-- Claim C2, witness for the amended theorem at `arr = [7, 8]`,
`limit = 5`. -/
theorem mapAllSettled_length_populated_witness :
    ∃ res, mapAllSettled [7, 8] (fun v _ _ => (Except.ok (v + 1) : Except Unit Nat)) 5 =
        .ok res ∧
      res.length = ([7, 8] : List Nat).length ∧
      ∀ i (h : i < ([7, 8] : List Nat).length),
        res[i]? = some (some (runMapFn (fun v _ _ => (Except.ok (v + 1) : Except Unit Nat))
          ([7, 8] : List Nat)[i] i [7, 8])) :=
  mapAllSettled_length_populated [7, 8]
    (fun v _ _ => (Except.ok (v + 1) : Except Unit Nat)) 5 (by decide)

/-- Claim C3, counterexample: with a negative requested limit on nonempty
input, `mapAllSettled` itself fails (the `RangeError` from
`new Array(concurrentLimit)`), so it is not failure-free for every
requested concurrency limit. -/
theorem mapAllSettled_negative_limit_fails :
    mapAllSettled [5] (fun v _ _ => (Except.ok v : Except Unit Nat)) (-1) =
      .error JsError.rangeError := by
  decide

/-- Claim C3, amended: for every nonnegative requested limit,
`mapAllSettled` itself always completes successfully — even when
individual transform invocations fail, their failures are absorbed into
`rejected` entries; only a negative requested limit makes the operation
itself fail. -/
theorem mapAllSettled_no_operation_failure (arr : List T) (mapFn : AsyncMapFn T R E)
    (limit : Int) (hlim : 0 ≤ limit) :
    ∃ res, mapAllSettled arr mapFn limit = .ok res := by
  by_cases harr : arr.length = 0
  · exact ⟨[], by rw [mapAllSettled, mapAllSettledExec, if_pos harr, Except.map]⟩
  · have hneg : ¬ (min limit (arr.length : Int) < 0) := by
      have : (0 : Int) ≤ (arr.length : Int) := by exact_mod_cast Nat.zero_le arr.length
      omega
    refine ⟨((runWorkers (min limit (arr.length : Int)).toNat (mapParams arr) mapFn
      ⟨arr, []⟩).1).result, ?_⟩
    rw [mapAllSettled, mapAllSettledExec]
    simp only [if_neg harr, if_neg hneg]
    rfl

/-- Claim C3, witness for the amended theorem at a transform that fails on
every input: the operation still succeeds. -/
theorem mapAllSettled_no_operation_failure_witness :
    ∃ res, mapAllSettled [1, 2] (fun _ _ _ => (Except.error 0 : Except Nat Nat)) 1 =
      .ok res :=
  mapAllSettled_no_operation_failure [1, 2]
    (fun _ _ _ => (Except.error 0 : Except Nat Nat)) 1 (by decide)

/-- Claim C4: `runMapFn` always returns a tagged settled result and never
propagates a failure — `fulfilled` with the value when the transform
completes normally, `rejected` with the unmodified captured reason when
it fails. -/
theorem runMapFn_settled (mapFn : AsyncMapFn T R E) (value : T) (index : Nat)
    (array : List T) :
    (∀ v, mapFn value index array = .ok v →
      runMapFn mapFn value index array = .fulfilled v) ∧
    (∀ reason, mapFn value index array = .error reason →
      runMapFn mapFn value index array = .rejected reason) := by
  constructor <;> intro x hx <;> simp [runMapFn, hx]

/-- Claim C4, witness at a succeeding and at a failing transform. -/
theorem runMapFn_settled_witness :
    runMapFn (fun v _ _ => (Except.ok (v + 1) : Except Unit Nat)) 3 0 [3] =
      .fulfilled 4 ∧
    runMapFn (fun _ _ _ => (Except.error 7 : Except Nat Nat)) 3 0 [3] =
      .rejected 7 :=
  ⟨(runMapFn_settled (fun v _ _ => (Except.ok (v + 1) : Except Unit Nat)) 3 0 [3]).1
      4 rfl,
    (runMapFn_settled (fun _ _ _ => (Except.error 7 : Except Nat Nat)) 3 0 [3]).2
      7 rfl⟩

/-- Claim C5: when the transform never fails, every result entry is
`fulfilled` and the bounded run (any limit with at least one worker)
equals the unlimited-parallelism settle-all semantics — the direct map of
the transform over the input. -/
theorem mapAllSettled_refines_allSettled (arr : List T) (mapFn : AsyncMapFn T R E)
    (limit : Int) (hlim : 1 ≤ limit)
    (hok : ∀ v i a, exceptFails (mapFn v i a) = false) :
    mapAllSettled arr mapFn limit = .ok ((allSettledUnbounded mapFn arr).map some) ∧
    ∀ r ∈ allSettledUnbounded mapFn arr, ∃ v, r = .fulfilled v := by
  refine ⟨mapAllSettled_of_one_le arr mapFn limit hlim, ?_⟩
  intro r hr
  rw [allSettledUnbounded] at hr
  obtain ⟨iv, _, hiv⟩ := List.mem_map.mp hr
  cases hfn : mapFn iv.2 iv.1 arr with
  | ok v => exact ⟨v, by rw [← hiv, runMapFn, hfn]⟩
  | error e =>
      have hcontra := hok iv.2 iv.1 arr
      rw [hfn] at hcontra
      simp [exceptFails] at hcontra

/-- Claim C5, witness at `arr = [1, 2]` with a transform that never
fails. -/
theorem mapAllSettled_refines_allSettled_witness :
    mapAllSettled [1, 2] (fun v _ _ => (Except.ok (v * 10) : Except Unit Nat)) 1 =
      .ok ((allSettledUnbounded
        (fun v _ _ => (Except.ok (v * 10) : Except Unit Nat)) [1, 2]).map some) ∧
    ∀ r ∈ allSettledUnbounded
        (fun v _ _ => (Except.ok (v * 10) : Except Unit Nat)) [1, 2],
      ∃ v, r = .fulfilled v :=
  mapAllSettled_refines_allSettled [1, 2]
    (fun v _ _ => (Except.ok (v * 10) : Except Unit Nat)) 1 (by decide)
    (fun _ _ _ => rfl)

/-- Claim C6: when the transform fails exactly at the indices in `S`, the
returned slate (any limit with at least one worker) is `rejected` exactly
at the indices in `S` and `fulfilled` elsewhere, with slot `i` holding
the settled result of input `i` — nothing missing or duplicated. -/
theorem mapAllSettled_rejected_iff (arr : List T) (mapFn : AsyncMapFn T R E)
    (S : List Nat) (limit : Int) (hlim : 1 ≤ limit)
    (hS : ∀ i (h : i < arr.length),
      (exceptFails (mapFn arr[i] i arr) = true ↔ i ∈ S)) :
    mapAllSettled arr mapFn limit = .ok ((allSettledUnbounded mapFn arr).map some) ∧
    (allSettledUnbounded mapFn arr).length = arr.length ∧
    ∀ i (h : i < arr.length) (h' : i < (allSettledUnbounded mapFn arr).length),
      (allSettledUnbounded mapFn arr)[i] = runMapFn mapFn arr[i] i arr ∧
      (isRejected ((allSettledUnbounded mapFn arr)[i]) = true ↔ i ∈ S) ∧
      (isFulfilled ((allSettledUnbounded mapFn arr)[i]) = true ↔ ¬ i ∈ S) := by
  refine ⟨mapAllSettled_of_one_le arr mapFn limit hlim, by simp, ?_⟩
  intro i h h'
  have hget := allSettledUnbounded_getElem mapFn arr i h h'
  refine ⟨hget, ?_, ?_⟩
  · rw [hget, isRejected_runMapFn]
    exact hS i h
  · rw [hget, isFulfilled_runMapFn, ← hS i h]
    cases exceptFails (mapFn arr[i] i arr) <;> simp

/-- Claim C6, witness at `arr = [0, 1, 2]` with a transform failing
exactly at index `1`. -/
theorem mapAllSettled_rejected_iff_witness :
    mapAllSettled [0, 1, 2]
        (fun v _ _ => if v = 1 then (Except.error () : Except Unit Nat)
          else Except.ok v) 2 =
      .ok ((allSettledUnbounded
        (fun v _ _ => if v = 1 then (Except.error () : Except Unit Nat)
          else Except.ok v) [0, 1, 2]).map some) ∧
    (allSettledUnbounded
      (fun v _ _ => if v = 1 then (Except.error () : Except Unit Nat)
        else Except.ok v) [0, 1, 2]).length = ([0, 1, 2] : List Nat).length ∧
    ∀ i (h : i < ([0, 1, 2] : List Nat).length)
      (h' : i < (allSettledUnbounded
        (fun v _ _ => if v = 1 then (Except.error () : Except Unit Nat)
          else Except.ok v) [0, 1, 2]).length),
      (allSettledUnbounded
        (fun v _ _ => if v = 1 then (Except.error () : Except Unit Nat)
          else Except.ok v) [0, 1, 2])[i] =
        runMapFn (fun v _ _ => if v = 1 then (Except.error () : Except Unit Nat)
          else Except.ok v) ([0, 1, 2] : List Nat)[i] i [0, 1, 2] ∧
      (isRejected ((allSettledUnbounded
        (fun v _ _ => if v = 1 then (Except.error () : Except Unit Nat)
          else Except.ok v) [0, 1, 2])[i]) = true ↔ i ∈ [1]) ∧
      (isFulfilled ((allSettledUnbounded
        (fun v _ _ => if v = 1 then (Except.error () : Except Unit Nat)
          else Except.ok v) [0, 1, 2])[i]) = true ↔ ¬ i ∈ [1]) :=
  mapAllSettled_rejected_iff [0, 1, 2]
    (fun v _ _ => if v = 1 then (Except.error () : Except Unit Nat)
      else Except.ok v) [1] 2 (by decide) (by decide)

/-- Claim C7: the work source hands out each `(value, index, array)`
triple exactly once in ascending index order — the yielded indices are
exactly `0, 1, ..., N-1` and the `i`-th yield carries input `i` — and
once the `N` items are gone every further `next` call signals exhaustion,
permanently. -/
theorem mapParams_in_order (arr : List T) :
    (mapParams arr).map (fun p => p.2.1) = List.range arr.length ∧
    (∀ i (h : i < arr.length), (mapParams arr)[i]? = some (arr[i], i, arr)) ∧
    (∀ k, arr.length ≤ k → genNext (genDrain k (mapParams arr)) = (none, [])) := by
  refine ⟨?_, ?_, ?_⟩
  · rw [mapParams_eq_enum, List.map_map]
    have hcomp : ((fun p => p.2.1) ∘ fun iv : Nat × T => (iv.2, iv.1, arr)) =
        (Prod.fst : Nat × T → Nat) := rfl
    rw [hcomp]
    simp
  · intro i h
    have henum : arr.enum[i]? = some (i, arr[i]) := by
      simp [List.getElem?_eq_getElem h]
    rw [mapParams_eq_enum, List.getElem?_map, henum, Option.map]
  · intro k hk
    rw [genDrain_eq_drop]
    have hnil : (mapParams arr).drop k = [] :=
      List.drop_eq_nil_of_le (by simpa using hk)
    rw [hnil]
    rfl

/-- Claim C7, witness at `arr = [10, 20]`: indices handed out are `0, 1`,
the second yield is input `1`, and five `next` calls in, the generator is
exhausted for good. -/
theorem mapParams_in_order_witness :
    (mapParams [10, 20]).map (fun p => p.2.1) = List.range 2 ∧
    (mapParams [10, 20])[1]? = some (20, 1, [10, 20]) ∧
    genNext (genDrain 5 (mapParams [10, 20])) = (none, []) :=
  ⟨(mapParams_in_order [10, 20]).1,
    (mapParams_in_order [10, 20]).2.1 1 (by decide),
    (mapParams_in_order [10, 20]).2.2 5 (by decide)⟩

/-- Claim C8: on the empty input, `mapAllSettled` returns an empty slate
for every requested limit (even a negative one, which would have thrown
had the worker launch been reached — the early return skips the work
source and the workers), and the processed-items count is `0`, so the
transform is never invoked. -/
theorem mapAllSettled_empty_input (mapFn : AsyncMapFn T R E) (limit : Int) :
    mapAllSettled ([] : List T) mapFn limit = .ok [] ∧
    mapAllSettledExec ([] : List T) mapFn limit = .ok (⟨[], []⟩, 0) := by
  constructor <;> rfl

/-- Claim C9: the operation leaves the input sequence unchanged — the
input cell of the store is the same after the run; only the separate
result slate is written. -/
theorem mapAllSettled_preserves_input (arr : List T) (mapFn : AsyncMapFn T R E)
    (limit : Int) (s : Store T R E) (n : Nat)
    (h : mapAllSettledExec arr mapFn limit = .ok (s, n)) :
    s.arr = arr := by
  obtain ⟨sa, sr⟩ := s
  by_cases harr : arr.length = 0
  · simp [mapAllSettledExec, harr] at h
    simp [h.1.1]
  · by_cases hneg : min limit (arr.length : Int) < 0
    · simp [mapAllSettledExec, harr, hneg] at h
    · have harrw := runWorkers_arr mapFn (min limit (arr.length : Int)).toNat
        (mapParams arr) ⟨arr, []⟩
      simp only [mapAllSettledExec, if_neg harr, if_neg hneg] at h
      have h' := Except.ok.inj h
      rw [h'] at harrw
      simpa using harrw

/-- Claim C9, witness at `arr = [1, 2]`: the final input cell is
`[1, 2]`. -/
theorem mapAllSettled_preserves_input_witness :
    (⟨[1, 2], [some (.fulfilled 1), some (.fulfilled 2)]⟩ : Store Nat Nat Unit).arr =
      [1, 2] :=
  mapAllSettled_preserves_input [1, 2] (fun v _ _ => (Except.ok v : Except Unit Nat)) 1
    ⟨[1, 2], [some (.fulfilled 1), some (.fulfilled 2)]⟩ 2 (by decide)

/-- Claim C10: requesting a concurrency limit of exactly `0` on a
nonempty input returns an empty slate (length `0`, not `N`) and processes
nothing, so the transform is never invoked — zero workers are
launched. -/
theorem mapAllSettled_zero_limit_empty (arr : List T) (mapFn : AsyncMapFn T R E)
    (hN : 0 < arr.length) :
    mapAllSettled arr mapFn 0 = .ok [] ∧
    mapAllSettledExec arr mapFn 0 = .ok (⟨arr, []⟩, 0) := by
  have hz : arr.length ≠ 0 := by omega
  exact ⟨by rw [mapAllSettled, mapAllSettledExec_zero arr mapFn hz, Except.map],
    mapAllSettledExec_zero arr mapFn hz⟩

/-- Claim C10, witness at `arr = [9]`. -/
theorem mapAllSettled_zero_limit_empty_witness :
    mapAllSettled [9] (fun v _ _ => (Except.ok v : Except Unit Nat)) 0 = .ok [] ∧
    mapAllSettledExec [9] (fun v _ _ => (Except.ok v : Except Unit Nat)) 0 =
      .ok (⟨[9], []⟩, 0) :=
  mapAllSettled_zero_limit_empty [9] (fun v _ _ => (Except.ok v : Except Unit Nat))
    (by decide)

end CapParallel
